import Mathlib

/-!
Verification of the gesture-to-MIDI translation pipeline of vst-garage's
virtual-key controller: the MPE channel allocator / message encoder
(`src/midi/mpe_engine.py`), the One-Euro adaptive filter
(`src/utils/filters.py`), the perspective mapper (`src/core/spatial.py`)
and the per-finger press/release translator (`src/main.py`).

Machine integers are modelled as `Nat`/`Int`; Python floats as real
numbers; Python exceptions as `Except`.
-/

/-! ## MIDI constants (from `rtmidi.midiconstants`) -/

def NOTE_OFF : ℕ := 0x80
def NOTE_ON : ℕ := 0x90
def CONTROL_CHANGE : ℕ := 0xB0
def PITCH_BEND : ℕ := 0xE0
def CC_TIMBRE : ℕ := 74
def CC_ALL_NOTES_OFF : ℕ := 123

/-- An outbound MIDI message: a list of byte values. -/
abbrev Msg := List ℕ

/-! ## Python dict primitives

`MPEEngine.active_notes` is a Python dict `finger_key → (channel, note)`.
We embed it as an insertion-ordered association list with the dict
operations the engine uses: lookup, set (overwrite in place or append),
and pop. Finger keys are modelled as naturals, notes as integers. -/

def dictLookup (f : ℕ) : List (ℕ × ℕ × ℤ) → Option (ℕ × ℤ)
  | [] => none
  | (g, v) :: rest => if g = f then some v else dictLookup f rest

def dictSet (f : ℕ) (v : ℕ × ℤ) : List (ℕ × ℕ × ℤ) → List (ℕ × ℕ × ℤ)
  | [] => [(f, v)]
  | (g, w) :: rest => if g = f then (g, v) :: rest else (g, w) :: dictSet f v rest

def dictPop (f : ℕ) : List (ℕ × ℕ × ℤ) → List (ℕ × ℕ × ℤ)
  | [] => []
  | (g, w) :: rest => if g = f then rest else (g, w) :: dictPop f rest

/-- The channels held by the entries of an association list. -/
def chansOf (l : List (ℕ × ℕ × ℤ)) : List ℕ := l.map fun e => e.2.1

/-! ## MPEEngine state (`src/midi/mpe_engine.py`) -/

/-- The mutable state of `MPEEngine`: the `active_notes` dict
(finger → (channel_index, note_number)) and the `available_channels`
free list (initially channel indices 1–15). -/
structure MPEState where
  active_notes : List (ℕ × ℕ × ℤ)
  available_channels : List ℕ
deriving DecidableEq

/-- A freshly constructed engine: no associations, free pool = indices 1–15
(`list(range(1, 16))`). -/
def freshMPE : MPEState :=
  { active_notes := [], available_channels := List.range' 1 15 }

/-- `MPEEngine.note_on(finger_id, note_num, velocity)` (mpe_engine.py:59-85).
Returns the new state and the list of messages sent, in order.
If the pool is empty the call is a silent no-op. Otherwise it pops the
first free channel, records the association, sends a pitch-bend-centre
reset and then the note-on with velocity clamped to [1,127] and the note
masked to 7 bits (`note_num & 0x7F` = `note_num mod 128`). -/
def note_on (s : MPEState) (finger_id : ℕ) (note_num : ℤ) (velocity : ℤ) :
    MPEState × List Msg :=
  match s.available_channels with
  | [] => (s, [])
  | chan :: rest =>
    ({ active_notes := dictSet finger_id (chan, note_num) s.active_notes,
       available_channels := rest },
     [[PITCH_BEND ||| chan, 0x00, 0x40],
      [NOTE_ON ||| chan, (note_num % 128).toNat, (max 1 (min 127 velocity)).toNat]])

/-- `MPEEngine.note_off(finger_id, note_num=None)` (mpe_engine.py:116-135).
No-op when the finger has no association; otherwise pops the association,
sends note-off for the stored (or overridden) note, resets pitch bend to
centre and appends the channel back to the free pool. -/
def note_off (s : MPEState) (finger_id : ℕ) (note_num : Option ℤ) :
    MPEState × List Msg :=
  match dictLookup finger_id s.active_notes with
  | none => (s, [])
  | some (chan, stored_note) =>
    let actual_note := note_num.getD stored_note
    ({ active_notes := dictPop finger_id s.active_notes,
       available_channels := s.available_channels ++ [chan] },
     [[NOTE_OFF ||| chan, (actual_note % 128).toNat, 0],
      [PITCH_BEND ||| chan, 0x00, 0x40]])

/-- `MPEEngine.all_notes_off()` (mpe_engine.py:137-142): CC 123 on every
protocol channel 0–15, clear the dict, restore the full free pool. -/
def all_notes_off (_s : MPEState) : MPEState × List Msg :=
  ({ active_notes := [], available_channels := List.range' 1 15 },
   (List.range 16).map fun channel => [CONTROL_CHANGE ||| channel, CC_ALL_NOTES_OFF, 0])

/-- The list of channel indices currently held by active associations. -/
def activeChans (s : MPEState) : List ℕ := chansOf s.active_notes

/-- The channel currently associated with a finger, if any. -/
def channelOf (s : MPEState) (f : ℕ) : Option ℕ :=
  (dictLookup f s.active_notes).map Prod.fst

/-! ## Allocator traces (for the channel-partition invariant) -/

/-- One allocator call: `note_on` or `note_off`. -/
inductive AllocOp where
  | onOp (finger_id : ℕ) (note_num : ℤ) (velocity : ℤ)
  | offOp (finger_id : ℕ) (note_num : Option ℤ)
deriving DecidableEq

def allocStep (s : MPEState) : AllocOp → MPEState
  | .onOp f n v => (note_on s f n v).1
  | .offOp f n => (note_off s f n).1

def allocRun (s : MPEState) (ops : List AllocOp) : MPEState :=
  ops.foldl allocStep s

/-- A trace is admissible when `note_on` is never invoked for a finger id
that already has an active association (the discipline `main.py`'s
translator maintains via its `was_active` check). -/
def admissible (s : MPEState) : List AllocOp → Bool
  | [] => true
  | op :: rest =>
    (match op with
     | .onOp f _ _ => (dictLookup f s.active_notes).isNone
     | .offOp _ _ => true) && admissible (allocStep s op) rest

/-- The channel-partition invariant: the multiset of channels held by
active associations plus the free pool equals the fixed 15-channel set. -/
def chanInv (s : MPEState) : Prop :=
  ((activeChans s : Multiset ℕ) + (s.available_channels : Multiset ℕ)) =
    (List.range' 1 15 : Multiset ℕ)


/-! ## Dictionary lemmas -/

lemma dictLookup_set_self (f : ℕ) (v : ℕ × ℤ) (l : List (ℕ × ℕ × ℤ)) :
    dictLookup f (dictSet f v l) = some v := by
  induction l with
  | nil => simp [dictSet, dictLookup]
  | cons e rest ih =>
    obtain ⟨g, w⟩ := e
    by_cases hg : g = f
    · subst hg; simp [dictSet, dictLookup]
    · simp [dictSet, dictLookup, hg, ih]

lemma dictLookup_set_ne (f g : ℕ) (v : ℕ × ℤ) (l : List (ℕ × ℕ × ℤ)) (h : g ≠ f) :
    dictLookup g (dictSet f v l) = dictLookup g l := by
  have hfg : f ≠ g := fun hf => h hf.symm
  induction l with
  | nil => simp [dictSet, dictLookup, hfg]
  | cons e rest ih =>
    obtain ⟨k, w⟩ := e
    by_cases hk : k = f
    · subst hk
      simp [dictSet, dictLookup, hfg]
    · simp [dictSet, dictLookup, hk, ih]

lemma chansOf_set_fresh (f : ℕ) (v : ℕ × ℤ) (l : List (ℕ × ℕ × ℤ))
    (h : dictLookup f l = none) :
    chansOf (dictSet f v l) = chansOf l ++ [v.1] := by
  induction l with
  | nil => simp [dictSet, chansOf]
  | cons e rest ih =>
    obtain ⟨k, w⟩ := e
    by_cases hk : k = f
    · subst hk; simp [dictLookup] at h
    · simp only [dictLookup, if_neg hk] at h
      have ih' := ih h
      simp only [dictSet, if_neg hk, chansOf, List.map_cons] at ih' ⊢
      rw [ih']
      simp

lemma chansOf_pop (f : ℕ) (c : ℕ) (n : ℤ) (l : List (ℕ × ℕ × ℤ))
    (h : dictLookup f l = some (c, n)) :
    (chansOf l : Multiset ℕ) = c ::ₘ (chansOf (dictPop f l) : Multiset ℕ) := by
  induction l with
  | nil => simp [dictLookup] at h
  | cons e rest ih =>
    obtain ⟨k, w⟩ := e
    by_cases hk : k = f
    · subst hk
      have h' : w = (c, n) := by simpa [dictLookup] using h
      subst h'
      simp [dictPop, chansOf]
    · simp only [dictLookup, if_neg hk] at h
      have ih' := ih h
      simp only [dictPop, if_neg hk, chansOf, List.map_cons] at ih' ⊢
      rw [← Multiset.cons_coe, ← Multiset.cons_coe, ih', Multiset.cons_swap]

/-! ## The channel-partition invariant is preserved by admissible traces -/

lemma coe_shuffle1 (A : List ℕ) (c : ℕ) (rest : List ℕ) :
    ((A ++ [c] : List ℕ) : Multiset ℕ) + (rest : Multiset ℕ) =
      (A : Multiset ℕ) + ((c :: rest : List ℕ) : Multiset ℕ) := by
  rw [Multiset.coe_add, Multiset.coe_add, Multiset.coe_eq_coe]
  simp [List.append_assoc]

lemma coe_shuffle2 (V : List ℕ) (c : ℕ) :
    ((V ++ [c] : List ℕ) : Multiset ℕ) = {c} + (V : Multiset ℕ) := by
  rw [← Multiset.coe_singleton c, Multiset.coe_add, Multiset.coe_eq_coe]
  exact List.perm_append_comm

lemma chanInv_fresh : chanInv freshMPE := by
  simp [chanInv, freshMPE, activeChans, chansOf]

lemma chanInv_note_on (s : MPEState) (f : ℕ) (n v : ℤ) (h : chanInv s)
    (hf : dictLookup f s.active_notes = none) :
    chanInv (note_on s f n v).1 := by
  cases hav : s.available_channels with
  | nil => simpa [note_on, hav] using h
  | cons c rest =>
    unfold chanInv activeChans at h ⊢
    simp only [note_on, hav]
    rw [show chansOf (dictSet f (c, n) s.active_notes) = chansOf s.active_notes ++ [c] from
      chansOf_set_fresh f (c, n) s.active_notes hf]
    rw [hav] at h
    rw [coe_shuffle1]
    exact h

lemma chanInv_note_off (s : MPEState) (f : ℕ) (n : Option ℤ) (h : chanInv s) :
    chanInv (note_off s f n).1 := by
  cases hl : dictLookup f s.active_notes with
  | none => simpa [note_off, hl] using h
  | some cn =>
    obtain ⟨c, note⟩ := cn
    unfold chanInv activeChans at h ⊢
    simp only [note_off, hl]
    rw [chansOf_pop f c note s.active_notes hl, ← Multiset.singleton_add] at h
    rw [← h, coe_shuffle2]
    abel

lemma chanInv_run (ops : List AllocOp) : ∀ s : MPEState,
    admissible s ops = true → chanInv s → chanInv (allocRun s ops) := by
  induction ops with
  | nil => intro s _ h; simpa [allocRun] using h
  | cons op rest ih =>
    intro s hadm h
    simp only [admissible, Bool.and_eq_true] at hadm
    have hrun : allocRun s (op :: rest) = allocRun (allocStep s op) rest := rfl
    rw [hrun]
    refine ih _ hadm.2 ?_
    cases op with
    | onOp f n v =>
      exact chanInv_note_on s f n v h (by simpa [Option.isNone_iff_eq_none] using hadm.1)
    | offOp f n => exact chanInv_note_off s f n h

lemma chanInv_disjoint_union (s : MPEState) (h : chanInv s) :
    (∀ c ∈ activeChans s, c ∉ s.available_channels) ∧
    (∀ c, (c ∈ activeChans s ∨ c ∈ s.available_channels) ↔ c ∈ List.range' 1 15) := by
  unfold chanInv at h
  constructor
  · intro c hc hv
    have hnd : ((List.range' 1 15 : List ℕ) : Multiset ℕ).Nodup :=
      Multiset.coe_nodup.mpr (List.nodup_range' 1 15)
    have hcount : Multiset.count c ((List.range' 1 15 : List ℕ) : Multiset ℕ) ≤ 1 :=
      Multiset.nodup_iff_count_le_one.mp hnd c
    rw [← h, Multiset.count_add] at hcount
    have h1 : 1 ≤ Multiset.count c (activeChans s : Multiset ℕ) :=
      Multiset.one_le_count_iff_mem.mpr (Multiset.mem_coe.mpr hc)
    have h2 : 1 ≤ Multiset.count c (s.available_channels : Multiset ℕ) :=
      Multiset.one_le_count_iff_mem.mpr (Multiset.mem_coe.mpr hv)
    omega
  · intro c
    have hmem : c ∈ (activeChans s : Multiset ℕ) + (s.available_channels : Multiset ℕ) ↔
        c ∈ ((List.range' 1 15 : List ℕ) : Multiset ℕ) := by rw [h]
    rw [Multiset.mem_add, Multiset.mem_coe, Multiset.mem_coe, Multiset.mem_coe] at hmem
    exact hmem

/-- C1 (amended): for every sequence of `note_on`/`note_off` calls from a
fresh allocator in which `note_on` is never issued for a finger id that
already holds an active association, the channels held by active
associations and the free pool are disjoint, and their union is exactly
the fixed note-channel set {1, …, 15}. -/
theorem alloc_partition (ops : List AllocOp) (h : admissible freshMPE ops = true) :
    (∀ c ∈ activeChans (allocRun freshMPE ops),
        c ∉ (allocRun freshMPE ops).available_channels) ∧
    (∀ c, (c ∈ activeChans (allocRun freshMPE ops) ∨
        c ∈ (allocRun freshMPE ops).available_channels) ↔ c ∈ List.range' 1 15) :=
  chanInv_disjoint_union _ (chanInv_run ops freshMPE h chanInv_fresh)

/-- Witness for `alloc_partition` at a concrete admissible trace. -/
theorem alloc_partition_witness :
    (∀ c ∈ activeChans (allocRun freshMPE
        [AllocOp.onOp 0 60 64, AllocOp.onOp 1 62 64, AllocOp.offOp 0 none]),
      c ∉ (allocRun freshMPE
        [AllocOp.onOp 0 60 64, AllocOp.onOp 1 62 64, AllocOp.offOp 0 none]).available_channels) ∧
    (∀ c, (c ∈ activeChans (allocRun freshMPE
        [AllocOp.onOp 0 60 64, AllocOp.onOp 1 62 64, AllocOp.offOp 0 none]) ∨
      c ∈ (allocRun freshMPE
        [AllocOp.onOp 0 60 64, AllocOp.onOp 1 62 64, AllocOp.offOp 0 none]).available_channels) ↔
      c ∈ List.range' 1 15) :=
  alloc_partition _ (by decide)

/-- C1 counterexample: a repeated `note_on` for a finger that already has an
active association overwrites the dict entry, so the previously held channel
(index 1) ends up neither in an active association nor in the free pool —
the union of the two is no longer the full 15-channel set. -/
theorem alloc_partition_cx :
    1 ∉ activeChans (allocRun freshMPE [AllocOp.onOp 0 60 64, AllocOp.onOp 0 62 64]) ∧
    1 ∉ (allocRun freshMPE [AllocOp.onOp 0 60 64, AllocOp.onOp 0 62 64]).available_channels ∧
    (1 : ℕ) ∈ List.range' 1 15 := by decide

/-- C9: `all_notes_off`, from any allocator state, emits CC 123 on all 16
protocol channels 0–15, clears every finger association, and restores the
free pool to the full 15 note-channel list. -/
theorem all_notes_off_spec (s : MPEState) :
    (all_notes_off s).2.length = 16 ∧
    (∀ c < 16, [CONTROL_CHANGE ||| c, CC_ALL_NOTES_OFF, 0] ∈ (all_notes_off s).2) ∧
    (∀ f : ℕ, dictLookup f (all_notes_off s).1.active_notes = none) ∧
    (all_notes_off s).1.available_channels = List.range' 1 15 := by
  refine ⟨by simp [all_notes_off], ?_, fun f => by simp [all_notes_off, dictLookup],
    by simp [all_notes_off]⟩
  intro c hc
  simp only [all_notes_off, List.mem_map]
  exact ⟨c, List.mem_range.mpr hc, rfl⟩

/-- Witness for `all_notes_off_spec` at a concrete state. -/
theorem all_notes_off_witness :
    (all_notes_off (note_on freshMPE 0 60 80).1).2.length = 16 ∧
    (all_notes_off (note_on freshMPE 0 60 80).1).1.available_channels = List.range' 1 15 :=
  ⟨(all_notes_off_spec (note_on freshMPE 0 60 80).1).1,
   (all_notes_off_spec (note_on freshMPE 0 60 80).1).2.2.2⟩

/-! ## Saturation behaviour (15-voice ceiling) -/

/-- A list of `note_on` calls, one per (finger, note, velocity) triple. -/
def onsOf (fs : List (ℕ × ℤ × ℤ)) : List AllocOp :=
  fs.map fun p => AllocOp.onOp p.1 p.2.1 p.2.2

lemma allocRun_ons_spec (fs : List (ℕ × ℤ × ℤ)) : ∀ s : MPEState,
    (fs.map Prod.fst).Nodup →
    (∀ f ∈ fs.map Prod.fst, dictLookup f s.active_notes = none) →
    fs.length ≤ s.available_channels.length →
    (allocRun s (onsOf fs)).available_channels.length =
      s.available_channels.length - fs.length ∧
    (∀ f ∈ fs.map Prod.fst,
      (dictLookup f (allocRun s (onsOf fs)).active_notes).isSome = true) ∧
    (∀ g : ℕ, (dictLookup g s.active_notes).isSome = true →
      (dictLookup g (allocRun s (onsOf fs)).active_notes).isSome = true) := by
  induction fs with
  | nil =>
    intro s _ _ _
    exact ⟨by simp [onsOf, allocRun], by simp [onsOf], fun g hg => by
      simpa [onsOf, allocRun] using hg⟩
  | cons p rest ih =>
    intro s hnodup hfresh hlen
    obtain ⟨f, n, v⟩ := p
    simp only [List.map_cons, List.nodup_cons] at hnodup
    obtain ⟨hf_notin, hnodup'⟩ := hnodup
    cases hav : s.available_channels with
    | nil => rw [hav] at hlen; simp at hlen
    | cons c cs =>
      set s' : MPEState := { active_notes := dictSet f (c, n) s.active_notes,
                             available_channels := cs } with hs'
      have hstep : allocRun s (onsOf ((f, n, v) :: rest)) = allocRun s' (onsOf rest) := by
        simp [onsOf, allocRun, allocStep, note_on, hav, hs']
      have hfresh' : ∀ x ∈ rest.map Prod.fst, dictLookup x s'.active_notes = none := by
        intro x hx
        have hxf : x ≠ f := fun hxf => hf_notin (hxf ▸ hx)
        rw [hs']
        simp only
        rw [dictLookup_set_ne f x (c, n) s.active_notes hxf]
        exact hfresh x (by simp [hx])
      have hlen' : rest.length ≤ s'.available_channels.length := by
        rw [hav] at hlen
        simp only [List.length_cons] at hlen
        rw [hs']
        simp only
        omega
      obtain ⟨L, M, P⟩ := ih s' hnodup' hfresh' hlen'
      refine ⟨?_, ?_, ?_⟩
      · rw [hstep, L]
        simp only [hs', hav, List.length_cons]
        omega
      · intro x hx
        simp only [List.map_cons, List.mem_cons] at hx
        rcases hx with hx | hx
        · subst hx
          rw [hstep]
          apply P
          rw [hs']
          simp [dictLookup_set_self]
        · rw [hstep]
          exact M x hx
      · intro g hg
        rw [hstep]
        apply P
        rw [hs']
        simp only
        by_cases hgf : g = f
        · subst hgf
          simp [dictLookup_set_self]
        · rw [dictLookup_set_ne f g (c, n) s.active_notes hgf]
          exact hg

/-- C7: from a fresh allocator, after `note_on` for 15 distinct finger ids
the pool is exhausted; a 16th `note_on` with a new finger id is a silent
no-op (state unchanged, no message emitted); after one `note_off` of an
active finger exactly one further `note_on` succeeds (it creates an
association and emits its two messages, and the pool is empty again, so
the next `note_on` is again a no-op). -/
theorem saturation_then_release (fs : List (ℕ × ℤ × ℤ))
    (h1 : (fs.map Prod.fst).Nodup) (h2 : fs.length = 15)
    (g fnew f3 f4 : ℕ) (hg : g ∈ fs.map Prod.fst)
    (n v n3 v3 n4 v4 : ℤ)
    (s1 s2 s3 : MPEState)
    (hs1 : s1 = allocRun freshMPE (onsOf fs))
    (hs2 : s2 = (note_off s1 g none).1)
    (hs3 : s3 = (note_on s2 f3 n3 v3).1) :
    s1.available_channels = [] ∧
    note_on s1 fnew n v = (s1, []) ∧
    s2.available_channels.length = 1 ∧
    (dictLookup f3 s3.active_notes).isSome = true ∧
    (note_on s2 f3 n3 v3).2.length = 2 ∧
    s3.available_channels = [] ∧
    note_on s3 f4 n4 v4 = (s3, []) := by
  obtain ⟨L, M, _⟩ := allocRun_ons_spec fs freshMPE h1
    (fun f _ => by simp [freshMPE, dictLookup])
    (by simp [freshMPE, h2])
  have hempty : s1.available_channels = [] := by
    rw [hs1]
    apply List.eq_nil_of_length_eq_zero
    rw [L]
    simp [freshMPE, h2]
  have hg_some : (dictLookup g s1.active_notes).isSome = true := by
    rw [hs1]; exact M g hg
  obtain ⟨⟨c, note⟩, hc⟩ := Option.isSome_iff_exists.mp hg_some
  have hs2' : s2 = { active_notes := dictPop g s1.active_notes,
                     available_channels := s1.available_channels ++ [c] } := by
    rw [hs2]
    simp [note_off, hc]
  have hs2av : s2.available_channels = [c] := by
    rw [hs2', hempty]
    simp
  have hon3 : note_on s2 f3 n3 v3 =
      ({ active_notes := dictSet f3 (c, n3) s2.active_notes,
         available_channels := [] },
       [[PITCH_BEND ||| c, 0x00, 0x40],
        [NOTE_ON ||| c, (n3 % 128).toNat, (max 1 (min 127 v3)).toNat]]) := by
    simp [note_on, hs2av]
  refine ⟨hempty, by simp [note_on, hempty], by simp [hs2av], ?_, ?_, ?_, ?_⟩
  · rw [hs3, hon3]
    simp [dictLookup_set_self]
  · rw [hon3]
    rfl
  · rw [hs3, hon3]
  · have hs3av : s3.available_channels = [] := by rw [hs3, hon3]
    simp [note_on, hs3av]

/-- Witness for `saturation_then_release` on 15 concrete fingers. -/
theorem saturation_witness :
    ((allocRun freshMPE (onsOf ((List.range 15).map fun i => (i, (60 : ℤ), (64 : ℤ))))).available_channels = [] ∧
     note_on (allocRun freshMPE (onsOf ((List.range 15).map fun i => (i, (60 : ℤ), (64 : ℤ))))) 99 70 64 =
       (allocRun freshMPE (onsOf ((List.range 15).map fun i => (i, (60 : ℤ), (64 : ℤ)))), []) ∧
     ((note_off (allocRun freshMPE (onsOf ((List.range 15).map fun i => (i, (60 : ℤ), (64 : ℤ))))) 0 none).1.available_channels.length = 1) ∧
     (dictLookup 99 (note_on (note_off (allocRun freshMPE (onsOf ((List.range 15).map fun i => (i, (60 : ℤ), (64 : ℤ))))) 0 none).1 99 70 64).1.active_notes).isSome = true ∧
     (note_on (note_off (allocRun freshMPE (onsOf ((List.range 15).map fun i => (i, (60 : ℤ), (64 : ℤ))))) 0 none).1 99 70 64).2.length = 2 ∧
     (note_on (note_off (allocRun freshMPE (onsOf ((List.range 15).map fun i => (i, (60 : ℤ), (64 : ℤ))))) 0 none).1 99 70 64).1.available_channels = [] ∧
     note_on (note_on (note_off (allocRun freshMPE (onsOf ((List.range 15).map fun i => (i, (60 : ℤ), (64 : ℤ))))) 0 none).1 99 70 64).1 5 72 64 =
       ((note_on (note_off (allocRun freshMPE (onsOf ((List.range 15).map fun i => (i, (60 : ℤ), (64 : ℤ))))) 0 none).1 99 70 64).1, [])) :=
  saturation_then_release _ (by decide) (by decide) 0 99 99 5 (by decide)
    70 64 70 64 72 64 _ _ _ rfl rfl rfl

/-! ## Slide to a different note while pressed (main.py:216-220) -/

/-- The translator's slide branch: when a pressed finger's computed note
changes, `main.py` calls `self.mpe.note_off(k, old_note)` followed by
`self.mpe.note_on(k, note, velocity=80)`. -/
def slide (m : MPEState) (k : ℕ) (old_note new_note : ℤ) : MPEState × List Msg :=
  let r1 := note_off m k (some old_note)
  let r2 := note_on r1.1 k new_note 80
  (r2.1, r1.2 ++ r2.2)

/-- C2 counterexample: with a single active finger on a fresh engine
(finger 0 holds channel 1 and fourteen channels are free), sliding from
note 60 to note 62 reassigns the finger to channel 2 — the channel is not
preserved across the slide. -/
theorem slide_channel_cx :
    channelOf (note_on freshMPE 0 60 80).1 0 = some 1 ∧
    channelOf (slide (note_on freshMPE 0 60 80).1 0 60 62).1 0 = some 2 := by
  decide

/-- C2 (amended): when a pressed finger slides to a new note, the translator
emits the note-off for the old note and the note-on for the new note on the
same logical finger, but the association is torn down and re-created by a
fresh allocation: the old channel is appended to the free pool and the new
channel is the head of the resulting pool. The finger keeps its old channel
only in the special case that the free pool was empty before the slide. -/
theorem slide_spec (m : MPEState) (k : ℕ) (c : ℕ) (stored old_note new_note : ℤ)
    (h : dictLookup k m.active_notes = some (c, stored)) :
    dictLookup k (slide m k old_note new_note).1.active_notes =
      some ((m.available_channels ++ [c]).headI, new_note) ∧
    (slide m k old_note new_note).2 =
      [[NOTE_OFF ||| c, (old_note % 128).toNat, 0],
       [PITCH_BEND ||| c, 0x00, 0x40],
       [PITCH_BEND ||| (m.available_channels ++ [c]).headI, 0x00, 0x40],
       [NOTE_ON ||| (m.available_channels ++ [c]).headI, (new_note % 128).toNat, 80]] ∧
    (m.available_channels = [] →
      channelOf (slide m k old_note new_note).1 k = some c) := by
  cases hav : m.available_channels with
  | nil =>
    refine ⟨?_, ?_, ?_⟩
    · simp [slide, note_off, h, note_on, hav, dictLookup_set_self]
    · simp [slide, note_off, h, note_on, hav]
    · intro _
      simp [slide, note_off, h, note_on, hav, channelOf, dictLookup_set_self]
  | cons a rest =>
    refine ⟨?_, ?_, fun hnil => by simp [hav] at hnil⟩
    · simp [slide, note_off, h, note_on, hav, dictLookup_set_self]
    · simp [slide, note_off, h, note_on, hav]

/-- Witness for `slide_spec`: one active finger on a fresh engine. -/
theorem slide_spec_witness :
    dictLookup 0 (slide (note_on freshMPE 0 60 80).1 0 60 62).1.active_notes =
      some (((note_on freshMPE 0 60 80).1.available_channels ++ [1]).headI, 62) ∧
    (slide (note_on freshMPE 0 60 80).1 0 60 62).2 =
      [[NOTE_OFF ||| 1, ((60 : ℤ) % 128).toNat, 0],
       [PITCH_BEND ||| 1, 0x00, 0x40],
       [PITCH_BEND ||| ((note_on freshMPE 0 60 80).1.available_channels ++ [1]).headI, 0x00, 0x40],
       [NOTE_ON ||| ((note_on freshMPE 0 60 80).1.available_channels ++ [1]).headI, ((62 : ℤ) % 128).toNat, 80]] ∧
    ((note_on freshMPE 0 60 80).1.available_channels = [] →
      channelOf (slide (note_on freshMPE 0 60 80).1 0 60 62).1 0 = some 1) :=
  slide_spec (note_on freshMPE 0 60 80).1 0 1 60 60 62 (by decide)

/-! ## update_expression and message well-formedness -/

/-- Python `int()` truncation toward zero on a real. -/
noncomputable def pytruncR (r : ℝ) : ℤ := if r < 0 then -⌊-r⌋ else ⌊r⌋

/-- `MPEEngine.update_expression(finger_id, pitch_bend, y_val)`
(mpe_engine.py:87-114): no-op without an association; otherwise clamps the
14-bit pitch bend to [0,16383], splits it into LSB/MSB, sends the pitch-bend
message, then CC 74 with the timbre value `int(y_val * 127)` clamped to
[0,127]. -/
noncomputable def update_expression (s : MPEState) (finger_id : ℕ)
    (pitch_bend : ℤ) (y_val : ℝ) : MPEState × List Msg :=
  match dictLookup finger_id s.active_notes with
  | none => (s, [])
  | some (chan, _) =>
    let pb := max 0 (min 16383 pitch_bend)
    let pb_lsb := (pb % 128).toNat
    let pb_msb := ((pb / 128) % 128).toNat
    let cc_val := (max 0 (min 127 (pytruncR (y_val * 127)))).toNat
    (s, [[PITCH_BEND ||| chan, pb_lsb, pb_msb],
         [CONTROL_CHANGE ||| chan, CC_TIMBRE, cc_val]])

lemma dictLookup_mem_chans (f : ℕ) (c : ℕ) (x : ℤ) (l : List (ℕ × ℕ × ℤ))
    (h : dictLookup f l = some (c, x)) : c ∈ chansOf l := by
  induction l with
  | nil => simp [dictLookup] at h
  | cons e rest ih =>
    obtain ⟨k, w⟩ := e
    by_cases hk : k = f
    · subst hk
      have h' : w = (c, x) := by simpa [dictLookup] using h
      subst h'
      simp [chansOf]
    · simp only [dictLookup, if_neg hk] at h
      simp [chansOf]
      exact Or.inr (by simpa [chansOf] using ih h)

/-- A well-formed 3-byte channel-voice message: status byte =
`message_type ||| channel_index` with the channel index in 0–15 and both
data bytes in the 7-bit range. -/
def validMsg (m : Msg) : Prop :=
  ∃ t c d1 d2, (t = NOTE_OFF ∨ t = NOTE_ON ∨ t = CONTROL_CHANGE ∨ t = PITCH_BEND) ∧
    c < 16 ∧ d1 < 128 ∧ d2 < 128 ∧ m = [t ||| c, d1, d2]

/-- Every channel index tracked by the engine state is in 0–15 (true of all
reachable states; the pool starts as 1–15 and channels only move between
the pool and the association dict). -/
def wfChans (s : MPEState) : Prop :=
  (∀ c ∈ activeChans s, c < 16) ∧ ∀ c ∈ s.available_channels, c < 16

/-- C10: every message emitted by `note_on`, `update_expression`,
`note_off` and `all_notes_off`, for arbitrary note numbers, velocities,
pitch-bend and timbre inputs, is a well-formed 3-byte channel-voice
message: status = type ||| channel with channel in 0–15, data bytes in
0–127. -/
theorem messages_wellformed (s : MPEState) (hs : wfChans s)
    (f1 : ℕ) (n v : ℤ) (f2 : ℕ) (pb : ℤ) (y : ℝ) (f3 : ℕ) (n3 : Option ℤ) :
    (∀ m ∈ (note_on s f1 n v).2, validMsg m) ∧
    (∀ m ∈ (update_expression s f2 pb y).2, validMsg m) ∧
    (∀ m ∈ (note_off s f3 n3).2, validMsg m) ∧
    (∀ m ∈ (all_notes_off s).2, validMsg m) := by
  have hmod : ∀ z : ℤ, (z % 128).toNat < 128 := by intro z; omega
  refine ⟨?_, ?_, ?_, ?_⟩
  · cases hav : s.available_channels with
    | nil => simp [note_on, hav]
    | cons c cs =>
      have hc : c < 16 := hs.2 c (by rw [hav]; simp)
      intro m hm
      simp only [note_on, hav, List.mem_cons, List.not_mem_nil, or_false] at hm
      rcases hm with hm | hm
      · exact ⟨PITCH_BEND, c, 0x00, 0x40, by simp, hc, by norm_num, by norm_num, hm⟩
      · refine ⟨NOTE_ON, c, (n % 128).toNat, (max 1 (min 127 v)).toNat, by simp, hc,
          hmod n, by omega, hm⟩
  · cases hl : dictLookup f2 s.active_notes with
    | none => simp [update_expression, hl]
    | some cn =>
      obtain ⟨c, x⟩ := cn
      have hc : c < 16 := hs.1 c (dictLookup_mem_chans f2 c x s.active_notes hl)
      intro m hm
      simp only [update_expression, hl, List.mem_cons, List.not_mem_nil, or_false] at hm
      rcases hm with hm | hm
      · refine ⟨PITCH_BEND, c, ((max 0 (min 16383 pb)) % 128).toNat,
          (((max 0 (min 16383 pb)) / 128) % 128).toNat, by simp, hc,
          hmod _, hmod _, hm⟩
      · refine ⟨CONTROL_CHANGE, c, CC_TIMBRE,
          (max 0 (min 127 (pytruncR (y * 127)))).toNat, by simp, hc,
          by norm_num [CC_TIMBRE], by omega, hm⟩
  · cases hl : dictLookup f3 s.active_notes with
    | none => simp [note_off, hl]
    | some cn =>
      obtain ⟨c, x⟩ := cn
      have hc : c < 16 := hs.1 c (dictLookup_mem_chans f3 c x s.active_notes hl)
      intro m hm
      simp only [note_off, hl, List.mem_cons, List.not_mem_nil, or_false] at hm
      rcases hm with hm | hm
      · exact ⟨NOTE_OFF, c, ((n3.getD x) % 128).toNat, 0, by simp, hc, hmod _,
          by norm_num, hm⟩
      · exact ⟨PITCH_BEND, c, 0x00, 0x40, by simp, hc, by norm_num, by norm_num, hm⟩
  · intro m hm
    simp only [all_notes_off, List.mem_map, List.mem_range] at hm
    obtain ⟨c, hc, hm⟩ := hm
    exact ⟨CONTROL_CHANGE, c, CC_ALL_NOTES_OFF, 0, by simp, hc,
      by norm_num [CC_ALL_NOTES_OFF], by norm_num, hm.symm⟩

/-- Witness for `messages_wellformed` at a fresh engine and concrete inputs. -/
theorem messages_wellformed_witness :
    (∀ m ∈ (note_on freshMPE 0 60 64).2, validMsg m) ∧
    (∀ m ∈ (all_notes_off freshMPE).2, validMsg m) :=
  ⟨(messages_wellformed freshMPE (by unfold wfChans; decide) 0 60 64 0 8192 (1 / 2 : ℝ) 0 none).1,
   (messages_wellformed freshMPE (by unfold wfChans; decide) 0 60 64 0 8192 (1 / 2 : ℝ) 0 none).2.2.2⟩

/-! ## One-Euro filter (`src/utils/filters.py`)

Python floats are modelled as reals; a Python `ZeroDivisionError` is an
`Except` error value. -/

inductive FiltErr where
  | divZero
deriving DecidableEq

/-- Python float division: raises `ZeroDivisionError` when the divisor is
zero. -/
noncomputable def pyDiv (a b : ℝ) : Except FiltErr ℝ :=
  if b = 0 then .error .divZero else .ok (a / b)

/-- `OneEuroFilter` state: the constructor parameters plus `_x_prev`,
`_dx_prev`, `_t_prev` (filters.py:33-46). -/
structure EuroState where
  freq : ℝ
  min_cutoff : ℝ
  beta : ℝ
  d_cutoff : ℝ
  x_prev : Option ℝ
  dx_prev : ℝ
  t_prev : Option ℝ

/-- A freshly constructed `OneEuroFilter(freq, min_cutoff, beta, d_cutoff)`. -/
def freshEuro (freq min_cutoff beta d_cutoff : ℝ) : EuroState :=
  { freq := freq, min_cutoff := min_cutoff, beta := beta, d_cutoff := d_cutoff,
    x_prev := none, dx_prev := 0, t_prev := none }

/-- `OneEuroFilter._alpha(t_e, cutoff)` (filters.py:70-73):
`r = 2π·cutoff·t_e; return r / (r + 1)`. -/
noncomputable def alphaE (t_e cutoff : ℝ) : Except FiltErr ℝ :=
  pyDiv (2 * Real.pi * cutoff * t_e) (2 * Real.pi * cutoff * t_e + 1)

/-- The elapsed time computed at the top of `__call__` (filters.py:57):
`t - t_prev`, or `1.0 / freq` on the first call. -/
noncomputable def elapsed (st : EuroState) (t : ℝ) : Except FiltErr ℝ :=
  match st.t_prev with
  | some tp => .ok (t - tp)
  | none => pyDiv 1 st.freq

/-- The raw derivative estimate of filters.py:63:
`(x - x_prev) / t_e` when a previous value exists, else `0.0`. -/
noncomputable def raw_dx (st : EuroState) (x t : ℝ) : Except FiltErr ℝ :=
  match elapsed st t with
  | .error e => .error e
  | .ok t_e =>
    match st.x_prev with
    | some xp => pyDiv (x - xp) t_e
    | none => .ok 0

/-- `OneEuroFilter.__call__(x, t)` (filters.py:48-68). The divisions follow
Python semantics; `raw_dx` recomputes the same pure elapsed-time value the
call itself computes, in the same evaluation order as the source. -/
noncomputable def one_euro_call (st : EuroState) (x t : ℝ) :
    Except FiltErr (ℝ × EuroState) :=
  match elapsed st t with
  | .error e => .error e
  | .ok t_e =>
    match alphaE t_e st.d_cutoff with
    | .error e => .error e
    | .ok a_d =>
      match raw_dx st x t with
      | .error e => .error e
      | .ok dx =>
        let dx_hat := a_d * dx + (1 - a_d) * st.dx_prev
        let cutoff := st.min_cutoff + st.beta * |dx_hat|
        match alphaE t_e cutoff with
        | .error e => .error e
        | .ok a =>
          let x_hat := match st.x_prev with
            | some xp => a * x + (1 - a) * xp
            | none => x
          .ok (x_hat, { st with x_prev := some x_hat, dx_prev := dx_hat,
                                t_prev := some t })

/-- Feed a sample list through the filter, threading the state. -/
noncomputable def oneEuroRun (st : EuroState) :
    List (ℝ × ℝ) → Except FiltErr EuroState
  | [] => .ok st
  | (x, t) :: rest =>
    match one_euro_call st x t with
    | .error e => .error e
    | .ok (_, st') => oneEuroRun st' rest

/-- On a first call (no remembered sample) with positive parameters, the
filter returns the raw input unchanged and records it. -/
lemma one_euro_call_first (st : EuroState) (x t : ℝ)
    (hx : st.x_prev = none) (ht : st.t_prev = none) (hdx : st.dx_prev = 0)
    (hfreq : 0 < st.freq) (hdc : 0 < st.d_cutoff) (hmc : 0 < st.min_cutoff) :
    one_euro_call st x t =
      .ok (x, { st with x_prev := some x, dx_prev := 0, t_prev := some t }) := by
  have hte : elapsed st t = .ok (1 / st.freq) := by
    simp [elapsed, ht, pyDiv, hfreq.ne']
  have h1 : 2 * Real.pi * st.d_cutoff * (1 / st.freq) + 1 ≠ 0 := by positivity
  have h2 : 2 * Real.pi * st.min_cutoff * (1 / st.freq) + 1 ≠ 0 := by positivity
  have hdxe : raw_dx st x t = .ok 0 := by simp [raw_dx, hte, hx]
  simp only [one_div] at h1 h2
  simp [one_euro_call, hte, hdxe, hx, hdx, alphaE, pyDiv, h1, h2]

/-- C5: two samples with the same timestamp after the first call make
`t_e = 0`, and the unguarded raw-derivative division
`(x - x_prev) / t_e` (filters.py:63) raises `ZeroDivisionError`; the filter
does not treat a degenerate `dt` as a minimum tick quantum. -/
theorem filter_divzero_on_equal_timestamps :
    oneEuroRun (freshEuro 60 1 0 1) [(0, 1), (1, 1)] = .error .divZero := by
  have h1 := one_euro_call_first (freshEuro 60 1 0 1) 0 1 rfl rfl rfl
    (by norm_num [freshEuro]) (by norm_num [freshEuro]) (by norm_num [freshEuro])
  set st1 : EuroState := { freshEuro 60 1 0 1 with x_prev := some 0, dx_prev := 0, t_prev := some 1 } with hst1
  have hte : elapsed st1 1 = .ok 0 := by
    simp [elapsed, hst1]
  have hdx : raw_dx st1 1 1 = .error .divZero := by
    simp [raw_dx, hte, hst1, pyDiv]
  simp only [oneEuroRun, h1, ← hst1]
  simp [one_euro_call, hte, hdx, alphaE, pyDiv, oneEuroRun]

/-- C6 counterexample: run the filter on samples (0 at t=0) and (1 at t=1),
then feed (0 at t=2). The raw derivative estimate of the third call is
`(0 - x_prev)/1` where `x_prev = 2π/(2π+1)` is the second call's *filtered*
output, not the second call's raw input 1 — so it differs from
`(0 - 1)/(2 - 1)`. -/
theorem filter_dx_cx :
    (oneEuroRun (freshEuro 60 1 0 1) [(0, 0), (1, 1)]).bind (fun st => raw_dx st 0 2) ≠
      Except.ok (((0 : ℝ) - 1) / (2 - 1)) := by
  have h1 := one_euro_call_first (freshEuro 60 1 0 1) 0 0 rfl rfl rfl
    (by norm_num [freshEuro]) (by norm_num [freshEuro]) (by norm_num [freshEuro])
  set st1 : EuroState := { freshEuro 60 1 0 1 with x_prev := some 0, dx_prev := 0, t_prev := some 0 } with hst1
  have hte : elapsed st1 1 = .ok 1 := by
    simp [elapsed, hst1]
  have hne : 2 * Real.pi + 1 ≠ 0 := by positivity
  have had : alphaE 1 1 = .ok (2 * Real.pi / (2 * Real.pi + 1)) := by
    simp [alphaE, pyDiv, hne]
  have hdx1 : raw_dx st1 1 1 = .ok 1 := by
    simp [raw_dx, hte, hst1, pyDiv]
  set st2 : EuroState := { st1 with x_prev := some (2 * Real.pi / (2 * Real.pi + 1)), dx_prev := 2 * Real.pi / (2 * Real.pi + 1), t_prev := some 1 } with hst2
  have hfields : st1.d_cutoff = 1 ∧ st1.min_cutoff = 1 ∧ st1.beta = 0 ∧ st1.dx_prev = 0 ∧ st1.x_prev = some 0 := by
    refine ⟨?_, ?_, ?_, ?_, ?_⟩ <;> simp [hst1, freshEuro]
  obtain ⟨hd, hm, hb, hdp, hxp⟩ := hfields
  have hcall2 : one_euro_call st1 1 1 = .ok (2 * Real.pi / (2 * Real.pi + 1), st2) := by
    simp [one_euro_call, hte, had, hdx1, hd, hm, hb, hdp, hxp, hst2]
    simp [freshEuro, had]
  have hrun : oneEuroRun (freshEuro 60 1 0 1) [(0, 0), (1, 1)] = .ok st2 := by
    simp only [oneEuroRun, h1, ← hst1, hcall2]
  rw [hrun]
  have hdx2 : raw_dx st2 0 2 = .ok (-(2 * Real.pi / (2 * Real.pi + 1))) := by
    norm_num [raw_dx, elapsed, hst2, hst1, pyDiv]
  simp only [Except.bind, hdx2]
  intro heq
  simp only [Except.ok.injEq] at heq
  have hr : ((0 : ℝ) - 1) / (2 - 1) = -1 := by norm_num
  rw [hr] at heq
  have h1' : 2 * Real.pi / (2 * Real.pi + 1) = 1 := by linarith
  field_simp at h1'

/-- C6 (amended): the value the filter stores as its previous sample is the
call's *filtered* output (filters.py:67 stores `x_hat`), so on every call
after the first the raw derivative estimate equals
(current raw value − previous *filtered* output) / dt; on the first call
(no prior value) the estimate is zero. -/
theorem dx_from_filtered_prev (st : EuroState) (x t y : ℝ) (st' : EuroState)
    (h : one_euro_call st x t = .ok (y, st')) (x2 t2 : ℝ) (h2 : t2 ≠ t) :
    st'.x_prev = some y ∧ st'.t_prev = some t ∧
    raw_dx st' x2 t2 = .ok ((x2 - y) / (t2 - t)) ∧
    (st.x_prev = none → raw_dx st x t = .ok 0) := by
  cases hte : elapsed st t with
  | error e => simp [one_euro_call, hte] at h
  | ok t_e =>
    cases had : alphaE t_e st.d_cutoff with
    | error e => simp [one_euro_call, hte, had] at h
    | ok a_d =>
      cases hdx : raw_dx st x t with
      | error e => simp [one_euro_call, hte, had, hdx] at h
      | ok dx =>
        cases ha : alphaE t_e (st.min_cutoff + st.beta * |a_d * dx + (1 - a_d) * st.dx_prev|) with
        | error e => simp [one_euro_call, hte, had, hdx, ha] at h
        | ok a =>
          simp only [one_euro_call, hte, had, hdx, ha, Except.ok.injEq, Prod.mk.injEq] at h
          obtain ⟨hy, hst'⟩ := h
          subst hst'
          have hsub : t2 - t ≠ 0 := sub_ne_zero.mpr h2
          refine ⟨by simp [hy], by simp, ?_, ?_⟩
          · simp [raw_dx, elapsed, pyDiv, hsub, hy]
          · intro hxn
            rw [← hdx]
            simp [raw_dx, hte, hxn]

/-- Witness for `dx_from_filtered_prev`: the first call on a fresh filter. -/
theorem dx_from_filtered_prev_witness :
    ({ freshEuro 60 1 0 1 with x_prev := some (1 / 2 : ℝ), dx_prev := 0, t_prev := some 1 } : EuroState).x_prev = some (1 / 2 : ℝ) ∧
    ({ freshEuro 60 1 0 1 with x_prev := some (1 / 2 : ℝ), dx_prev := 0, t_prev := some 1 } : EuroState).t_prev = some 1 ∧
    raw_dx ({ freshEuro 60 1 0 1 with x_prev := some (1 / 2 : ℝ), dx_prev := 0, t_prev := some 1 } : EuroState) 0 2 = .ok (((0 : ℝ) - 1 / 2) / (2 - 1)) ∧
    ((freshEuro 60 1 0 1).x_prev = none → raw_dx (freshEuro 60 1 0 1) (1 / 2) 1 = .ok 0) :=
  dx_from_filtered_prev (freshEuro 60 1 0 1) (1 / 2) 1 (1 / 2) _
    (one_euro_call_first (freshEuro 60 1 0 1) (1 / 2) 1 rfl rfl rfl
      (by norm_num [freshEuro]) (by norm_num [freshEuro]) (by norm_num [freshEuro]))
    0 2 (by norm_num)

/-! ## SpatialEngine (`src/core/spatial.py`) -/

/-- A 3×3 homography matrix over the reals. -/
abbrev HMat := Matrix (Fin 3) (Fin 3) ℝ

/-- `SpatialEngine` state: `homography_matrix`, `None` when uncalibrated. -/
structure SpatialState where
  homography_matrix : Option HMat

/-- A fresh (or reset) engine: uncalibrated. -/
def freshSpatial : SpatialState := { homography_matrix := none }

/-- `SpatialEngine.project_point(x, y)` (spatial.py:78-98): identity
passthrough when uncalibrated; otherwise apply the projective transform
(`cv2.perspectiveTransform`: affine images divided by the homogeneous
coordinate) and clamp both outputs to [0, 1]. -/
noncomputable def project_point (sp : SpatialState) (x y : ℝ) : ℝ × ℝ :=
  match sp.homography_matrix with
  | none => (x, y)
  | some m =>
    let w := m 2 0 * x + m 2 1 * y + m 2 2
    let px := (m 0 0 * x + m 0 1 * y + m 0 2) / w
    let py := (m 1 0 * x + m 1 1 * y + m 1 2) / w
    (max 0 (min 1 px), max 0 (min 1 py))

/-- The only error `calibrate` raises: the `ValueError` for a point count
that is not exactly 4 (spatial.py:55-56). There is no error path for
degenerate points. -/
inductive CalErr where
  | valueError
deriving DecidableEq

/-- `SpatialEngine.calibrate(src_points, frame_w, frame_h)`
(spatial.py:40-68), parametrised by the external `cv2.findHomography`
(`findH`), which receives the normalised source points (the fixed
unit-square destination of spatial.py:62-65 is baked into it) and returns
a matrix, or `none` when it cannot compute one (degenerate / collinear
input). With exactly four points the result — whatever it is — is
assigned to `homography_matrix`, replacing the previous calibration. -/
noncomputable def calibrate (findH : List (ℝ × ℝ) → Option HMat)
    (_sp : SpatialState) (src_points : List (ℝ × ℝ)) (frame_w frame_h : ℝ) :
    Except CalErr SpatialState :=
  if src_points.length ≠ 4 then .error .valueError
  else .ok ⟨findH (src_points.map fun p => (p.1 / frame_w, p.2 / frame_h))⟩

/-- A calibrated transform that halves the vertical coordinate
(a valid, non-singular homography used as the pre-existing calibration in
counterexamples). -/
noncomputable def halfYMat : HMat := !![1, 0, 0; 0, 1 / 2, 0; 0, 0, 1]

lemma project_point_halfY (x y : ℝ) (hx0 : 0 ≤ x) (hx1 : x ≤ 1)
    (hy0 : 0 ≤ y) (hy1 : y ≤ 1) :
    project_point { homography_matrix := some halfYMat } x y = (x, y / 2) := by
  simp only [project_point, halfYMat]
  norm_num [Matrix.cons_val_zero, Matrix.cons_val_one, Matrix.cons_val_two,
    Matrix.head_cons, Matrix.vecHead, Matrix.vecTail]
  constructor
  · rw [min_eq_right hx1, max_eq_right hx0]
  · rw [min_eq_right (by linarith), max_eq_right (by linarith)]
    ring

/-- C4 counterexample: starting from an effective calibration (`halfYMat`),
calibrating with four collinear points — for which `cv2.findHomography`
yields no matrix — raises no error (the call returns normally and installs
`None`), and projection afterwards is the uncalibrated passthrough rather
than the previously effective calibration: (0.5, 0.8) now projects to
(0.5, 0.8) where before the call it projected to (0.5, 0.4). -/
theorem calibrate_degenerate_cx :
    calibrate (fun _ => none) { homography_matrix := some halfYMat }
      [(0, 0), (100, 0), (200, 0), (300, 0)] 640 480 =
      .ok { homography_matrix := none } ∧
    project_point { homography_matrix := none } 0.5 0.8 = (0.5, 0.8) ∧
    project_point { homography_matrix := some halfYMat } 0.5 0.8 = (0.5, 0.4) := by
  refine ⟨by simp [calibrate], by simp [project_point], ?_⟩
  have h := project_point_halfY 0.5 0.8 (by norm_num) (by norm_num) (by norm_num) (by norm_num)
  rw [h]
  norm_num

/-- C4 (amended): `calibrate` raises an error only for a point count other
than four (Python `ValueError`); with exactly four points — degenerate or
not — it never fails and unconditionally overwrites the stored calibration
with `cv2.findHomography`'s result, so the outcome is independent of the
previous calibration. When the solver returns nothing for a degenerate
quadruple, the mapper is left in uncalibrated passthrough; the previous
calibration does not remain in effect. -/
theorem calibrate_overwrites (findH : List (ℝ × ℝ) → Option HMat)
    (sp sp2 : SpatialState) (pts : List (ℝ × ℝ)) (w h : ℝ)
    (hlen : pts.length = 4) :
    calibrate findH sp pts w h =
      .ok ⟨findH (pts.map fun p => (p.1 / w, p.2 / h))⟩ ∧
    calibrate findH sp pts w h = calibrate findH sp2 pts w h ∧
    (∀ pts2 : List (ℝ × ℝ), pts2.length ≠ 4 →
      calibrate findH sp pts2 w h = .error .valueError) :=
  ⟨by simp [calibrate, hlen], rfl, fun pts2 h2 => by simp [calibrate, h2]⟩

/-- Witness for `calibrate_overwrites` at the concrete degenerate call. -/
theorem calibrate_overwrites_witness :
    calibrate (fun _ => none) { homography_matrix := some halfYMat }
        [(0, 0), (100, 0), (200, 0), (300, 0)] 640 480 =
      .ok ⟨(fun _ => none) ([(0, 0), (100, 0), (200, 0), (300, 0)].map
        fun p => (p.1 / 640, p.2 / 480))⟩ ∧
    calibrate (fun _ => none) { homography_matrix := some halfYMat }
        [(0, 0), (100, 0), (200, 0), (300, 0)] 640 480 =
      calibrate (fun _ => none) freshSpatial
        [(0, 0), (100, 0), (200, 0), (300, 0)] 640 480 ∧
    (∀ pts2 : List (ℝ × ℝ), pts2.length ≠ 4 →
      calibrate (fun _ => none) { homography_matrix := some halfYMat } pts2 640 480 =
        .error .valueError) :=
  calibrate_overwrites (fun _ => none) { homography_matrix := some halfYMat }
    freshSpatial [(0, 0), (100, 0), (200, 0), (300, 0)] 640 480 rfl

/-! ## Note-index mapping (`OpticalController._note_from_x`, main.py:125-126) -/

/-- `self.note_start + int(max(0.0, min(0.9999, x)) * self.num_notes)` with
`num_notes = note_end - note_start`; `int()` truncates toward zero. -/
noncomputable def note_from_x (note_start note_end : ℤ) (x : ℝ) : ℤ :=
  note_start + pytruncR (max 0 (min 0.9999 x) * ((note_end : ℝ) - (note_start : ℝ)))

/-- C8: for a keyboard range with `note_start < note_end`, the computed note
equals `note_start + ⌊clamp(px, 0, 0.9999) · (note_end − note_start)⌋` and
is always strictly below `note_end`. -/
theorem note_from_x_spec (ns ne : ℤ) (h : ns < ne) (x : ℝ) :
    note_from_x ns ne x = ns + ⌊max 0 (min 0.9999 x) * ((ne : ℝ) - (ns : ℝ))⌋ ∧
    note_from_x ns ne x < ne := by
  have hc0 : (0 : ℝ) ≤ max 0 (min 0.9999 x) := le_max_left 0 _
  have hc1 : max 0 (min 0.9999 x) ≤ 0.9999 :=
    max_le (by norm_num) (min_le_left _ _)
  have hN : (0 : ℝ) < (ne : ℝ) - (ns : ℝ) := sub_pos.mpr (by exact_mod_cast h)
  have hprod0 : 0 ≤ max 0 (min 0.9999 x) * ((ne : ℝ) - (ns : ℝ)) :=
    mul_nonneg hc0 hN.le
  have htr : pytruncR (max 0 (min 0.9999 x) * ((ne : ℝ) - (ns : ℝ))) =
      ⌊max 0 (min 0.9999 x) * ((ne : ℝ) - (ns : ℝ))⌋ := by
    simp [pytruncR, not_lt.mpr hprod0]
  refine ⟨by rw [note_from_x, htr], ?_⟩
  rw [note_from_x, htr]
  have hlt : max 0 (min 0.9999 x) * ((ne : ℝ) - (ns : ℝ)) < ((ne - ns : ℤ) : ℝ) := by
    push_cast
    calc max 0 (min 0.9999 x) * ((ne : ℝ) - (ns : ℝ))
        ≤ 0.9999 * ((ne : ℝ) - (ns : ℝ)) := mul_le_mul_of_nonneg_right hc1 hN.le
      _ < 1 * ((ne : ℝ) - (ns : ℝ)) := by
          exact mul_lt_mul_of_pos_right (by norm_num) hN
      _ = (ne : ℝ) - (ns : ℝ) := one_mul _
  have hfl : ⌊max 0 (min 0.9999 x) * ((ne : ℝ) - (ns : ℝ))⌋ < ne - ns :=
    Int.floor_lt.mpr hlt
  omega

/-- Witness for `note_from_x_spec`: projected position 0.999 with range
60–84 maps to note 83, strictly below 84. -/
theorem note_from_x_witness :
    note_from_x 60 84 0.999 < 84 ∧ note_from_x 60 84 0.999 = 83 := by
  refine ⟨(note_from_x_spec 60 84 (by norm_num) 0.999).2, ?_⟩
  have h1 := (note_from_x_spec 60 84 (by norm_num) 0.999).1
  rw [h1]
  rw [show max 0 (min 0.9999 (0.999 : ℝ)) = 0.999 by norm_num]
  rw [show ((84 : ℤ) : ℝ) - ((60 : ℤ) : ℝ) = 24 by norm_num]
  rw [show (0.999 : ℝ) * 24 = 23.976 by norm_num]
  rw [show ⌊(23.976 : ℝ)⌋ = 23 from Int.floor_eq_iff.mpr (by norm_num)]
  norm_num

/-! ## Per-finger press/release translation
(`OpticalController._process_hand`, main.py:193-227) -/

def KEY_ZONE_TOP : ℝ := 0.76
def KEY_ZONE_RELEASE : ℝ := 0.73

/-- The outcome of processing one fingertip in one frame: the filtered
coordinates, the projected coordinates, the finger's `active_fingers`
entry after the frame, the engine state, the messages sent, and the two
filter states. -/
structure ProcResult where
  fx : ℝ
  fy : ℝ
  px : ℝ
  py : ℝ
  active : Option ℤ
  mpe : MPEState
  events : List Msg
  stx : EuroState
  sty : EuroState

/-- One fingertip's slice of `_process_hand` (main.py:196-226): filter the
raw tip coordinates, project the filtered point, then decide
press/slide/release by comparing the *filtered* vertical coordinate `fy`
with the entry threshold 0.76 and the release threshold 0.73, driving the
MPE engine accordingly. `k` is the finger key, `af` the `active_fingers`
entry for `k` (the note currently held, if any). -/
noncomputable def process_finger (stx sty : EuroState) (sp : SpatialState)
    (m : MPEState) (k : ℕ) (af : Option ℤ) (note_start note_end : ℤ)
    (tipx tipy t : ℝ) : Except FiltErr ProcResult :=
  match one_euro_call stx tipx t with
  | .error e => .error e
  | .ok (fx, stx') =>
    match one_euro_call sty tipy t with
    | .error e => .error e
    | .ok (fy, sty') =>
      let p := project_point sp fx fy
      if KEY_ZONE_TOP ≤ fy then
        let note := note_from_x note_start note_end p.1
        match af with
        | none =>
          let r := note_on m k note 80
          .ok ⟨fx, fy, p.1, p.2, some note, r.1, r.2, stx', sty'⟩
        | some old =>
          if old ≠ note then
            let r := slide m k old note
            .ok ⟨fx, fy, p.1, p.2, some note, r.1, r.2, stx', sty'⟩
          else
            .ok ⟨fx, fy, p.1, p.2, some old, m, [], stx', sty'⟩
      else
        match af with
        | some old =>
          if fy < KEY_ZONE_RELEASE then
            let r := note_off m k (some old)
            .ok ⟨fx, fy, p.1, p.2, none, r.1, r.2, stx', sty'⟩
          else
            .ok ⟨fx, fy, p.1, p.2, some old, m, [], stx', sty'⟩
        | none => .ok ⟨fx, fy, p.1, p.2, none, m, [], stx', sty'⟩

/-- C3 counterexample: with an effective calibration that halves the
vertical coordinate, a released fingertip at raw/filtered y = 0.8 projects
to py = 0.4 — below the 0.76 entry threshold — yet the press fires
(a note becomes active), because the code compares the *unprojected*
filtered coordinate `fy` (main.py:205), not the projected one. -/
theorem press_projected_cx :
    ((process_finger (freshEuro 60 1 0 1) (freshEuro 60 1 0 1)
        { homography_matrix := some halfYMat } freshMPE 0 none 60 84 0.5 0.8 0).map
      fun r => r.active.isSome) = .ok true ∧
    ((process_finger (freshEuro 60 1 0 1) (freshEuro 60 1 0 1)
        { homography_matrix := some halfYMat } freshMPE 0 none 60 84 0.5 0.8 0).map
      fun r => r.py) = .ok 0.4 ∧
    ¬ (KEY_ZONE_TOP ≤ (0.4 : ℝ)) := by
  have hx := one_euro_call_first (freshEuro 60 1 0 1) 0.5 0 rfl rfl rfl
    (by norm_num [freshEuro]) (by norm_num [freshEuro]) (by norm_num [freshEuro])
  have hy := one_euro_call_first (freshEuro 60 1 0 1) 0.8 0 rfl rfl rfl
    (by norm_num [freshEuro]) (by norm_num [freshEuro]) (by norm_num [freshEuro])
  have hp := project_point_halfY 0.5 0.8 (by norm_num) (by norm_num)
    (by norm_num) (by norm_num)
  have hc : KEY_ZONE_TOP ≤ (0.8 : ℝ) := by norm_num [KEY_ZONE_TOP]
  refine ⟨?_, ?_, by norm_num [KEY_ZONE_TOP]⟩
  · simp [process_finger, hx, hy, hp, hc, Except.map]
  · simp [process_finger, hx, hy, hp, hc, Except.map]
    norm_num

/-- C3 (amended): for a finger in the Released state, the press decision is
made on the filtered but *unprojected* vertical coordinate: processing
succeeds with an active note exactly when the AdaptiveFilter output for the
raw vertical landmark is ≥ 0.76, and the decision is independent of the
PerspectiveMapper state. -/
theorem press_uses_unprojected (stx sty : EuroState) (sp : SpatialState)
    (m : MPEState) (k : ℕ) (ns ne : ℤ) (tipx tipy t : ℝ) (r : ProcResult)
    (h : process_finger stx sty sp m k none ns ne tipx tipy t = .ok r) :
    one_euro_call sty tipy t = .ok (r.fy, r.sty) ∧
    (r.active.isSome = true ↔ KEY_ZONE_TOP ≤ r.fy) ∧
    (∀ sp2 r2, process_finger stx sty sp2 m k none ns ne tipx tipy t = .ok r2 →
      r2.active.isSome = r.active.isSome) := by
  cases hx : one_euro_call stx tipx t with
  | error e => simp [process_finger, hx] at h
  | ok v =>
    obtain ⟨fx, stx'⟩ := v
    cases hy : one_euro_call sty tipy t with
    | error e => simp [process_finger, hx, hy] at h
    | ok w =>
      obtain ⟨fy, sty'⟩ := w
      by_cases hc : KEY_ZONE_TOP ≤ fy
      · simp only [process_finger, hx, hy, if_pos hc, Except.ok.injEq] at h
        subst h
        refine ⟨rfl, by simpa using hc, ?_⟩
        intro sp2 r2 h2
        simp only [process_finger, hx, hy, if_pos hc, Except.ok.injEq] at h2
        subst h2
        rfl
      · simp only [process_finger, hx, hy, if_neg hc, Except.ok.injEq] at h
        subst h
        refine ⟨rfl, by simpa using hc, ?_⟩
        intro sp2 r2 h2
        simp only [process_finger, hx, hy, if_neg hc, Except.ok.injEq] at h2
        subst h2
        rfl

/-- Evaluation of `process_finger` for a released finger on an uncalibrated
mapper with fresh filters: the first filter calls pass the raw coordinates
through, the projection is the identity, and y = 0.8 presses. -/
lemma process_finger_eval_uncal :
    process_finger (freshEuro 60 1 0 1) (freshEuro 60 1 0 1) freshSpatial
        freshMPE 0 none 60 84 0.5 0.8 0 =
      .ok ⟨0.5, 0.8, 0.5, 0.8, some (note_from_x 60 84 0.5),
        (note_on freshMPE 0 (note_from_x 60 84 0.5) 80).1,
        (note_on freshMPE 0 (note_from_x 60 84 0.5) 80).2,
        { freshEuro 60 1 0 1 with x_prev := some 0.5, dx_prev := 0, t_prev := some 0 },
        { freshEuro 60 1 0 1 with x_prev := some 0.8, dx_prev := 0, t_prev := some 0 }⟩ := by
  have hx := one_euro_call_first (freshEuro 60 1 0 1) 0.5 0 rfl rfl rfl
    (by norm_num [freshEuro]) (by norm_num [freshEuro]) (by norm_num [freshEuro])
  have hy := one_euro_call_first (freshEuro 60 1 0 1) 0.8 0 rfl rfl rfl
    (by norm_num [freshEuro]) (by norm_num [freshEuro]) (by norm_num [freshEuro])
  have hc : KEY_ZONE_TOP ≤ (0.8 : ℝ) := by norm_num [KEY_ZONE_TOP]
  simp [process_finger, hx, hy, hc, project_point, freshSpatial]

/-- Witness for `press_uses_unprojected` at concrete inputs. -/
theorem press_uses_unprojected_witness :
    one_euro_call (freshEuro 60 1 0 1) 0.8 0 =
      .ok ((⟨0.5, 0.8, 0.5, 0.8, some (note_from_x 60 84 0.5),
        (note_on freshMPE 0 (note_from_x 60 84 0.5) 80).1,
        (note_on freshMPE 0 (note_from_x 60 84 0.5) 80).2,
        { freshEuro 60 1 0 1 with x_prev := some 0.5, dx_prev := 0, t_prev := some 0 },
        { freshEuro 60 1 0 1 with x_prev := some 0.8, dx_prev := 0, t_prev := some 0 }⟩ : ProcResult).fy,
        (⟨0.5, 0.8, 0.5, 0.8, some (note_from_x 60 84 0.5),
        (note_on freshMPE 0 (note_from_x 60 84 0.5) 80).1,
        (note_on freshMPE 0 (note_from_x 60 84 0.5) 80).2,
        { freshEuro 60 1 0 1 with x_prev := some 0.5, dx_prev := 0, t_prev := some 0 },
        { freshEuro 60 1 0 1 with x_prev := some 0.8, dx_prev := 0, t_prev := some 0 }⟩ : ProcResult).sty) ∧
    ((⟨0.5, 0.8, 0.5, 0.8, some (note_from_x 60 84 0.5),
        (note_on freshMPE 0 (note_from_x 60 84 0.5) 80).1,
        (note_on freshMPE 0 (note_from_x 60 84 0.5) 80).2,
        { freshEuro 60 1 0 1 with x_prev := some 0.5, dx_prev := 0, t_prev := some 0 },
        { freshEuro 60 1 0 1 with x_prev := some 0.8, dx_prev := 0, t_prev := some 0 }⟩ : ProcResult).active.isSome = true ↔
      KEY_ZONE_TOP ≤ (⟨0.5, 0.8, 0.5, 0.8, some (note_from_x 60 84 0.5),
        (note_on freshMPE 0 (note_from_x 60 84 0.5) 80).1,
        (note_on freshMPE 0 (note_from_x 60 84 0.5) 80).2,
        { freshEuro 60 1 0 1 with x_prev := some 0.5, dx_prev := 0, t_prev := some 0 },
        { freshEuro 60 1 0 1 with x_prev := some 0.8, dx_prev := 0, t_prev := some 0 }⟩ : ProcResult).fy) ∧
    (∀ sp2 r2, process_finger (freshEuro 60 1 0 1) (freshEuro 60 1 0 1) sp2
        freshMPE 0 none 60 84 0.5 0.8 0 = .ok r2 →
      r2.active.isSome = (⟨0.5, 0.8, 0.5, 0.8, some (note_from_x 60 84 0.5),
        (note_on freshMPE 0 (note_from_x 60 84 0.5) 80).1,
        (note_on freshMPE 0 (note_from_x 60 84 0.5) 80).2,
        { freshEuro 60 1 0 1 with x_prev := some 0.5, dx_prev := 0, t_prev := some 0 },
        { freshEuro 60 1 0 1 with x_prev := some 0.8, dx_prev := 0, t_prev := some 0 }⟩ : ProcResult).active.isSome) :=
  press_uses_unprojected (freshEuro 60 1 0 1) (freshEuro 60 1 0 1) freshSpatial
    freshMPE 0 60 84 0.5 0.8 0 _ process_finger_eval_uncal
